import Mathlib

/-!
Shallow embedding of the DART downloader (src/app.py) and verification of
its specification.  Python strings are modelled as Lean String / List Char,
byte buffers as List Nat (one Nat per byte), HTTP traffic as explicit
response values handed to the functions, and Python exceptions as Except.
-/

set_option maxRecDepth 8000

namespace Dart

/-! ## Generic string helpers (Python str primitives) -/

/-- Python str.strip(): drop leading and trailing whitespace. -/
def pyStrip (l : List Char) : List Char :=
  ((l.dropWhile Char.isWhitespace).reverse.dropWhile Char.isWhitespace).reverse

/-- Removal of every whitespace character: the effect of re.sub(whitespace-run, empty). -/
def dropWs (l : List Char) : List Char :=
  l.filter (fun c => !c.isWhitespace)

/-- Case folding, modelled as character-wise lower casing. -/
def lowerAll (l : List Char) : List Char :=
  l.map Char.toLower

/-- Does the second list start with the first one? -/
def leadMatch : List Char → List Char → Bool
  | [], _ => true
  | _ :: _, [] => false
  | a :: as, b :: bs => a == b && leadMatch as bs

/-- Substring test (Python `needle in hay` on str). -/
def occursIn (needle : List Char) : List Char → Bool
  | [] => leadMatch needle []
  | b :: bs => leadMatch needle (b :: bs) || occursIn needle bs

/-- Lexicographic comparison of character lists by code point, as Python compares str. -/
def listLe : List Char → List Char → Bool
  | [], _ => true
  | _ :: _, [] => false
  | a :: as, b :: bs => if a = b then listLe as bs else decide (a < b)

/-- Python string less-or-equal. -/
def strLe (a b : String) : Bool := listLe a.data b.data

/-! ## sanitize_filename (src/app.py lines 51-59) -/

/-- One pass of str.replace(ch, underscore). -/
def replaceChar (old new : Char) (s : List Char) : List Char :=
  s.map fun c => if c = old then new else c

/-- Characters of the raw literal in the source (the raw string holds the
backslash twice, then the other forbidden characters). -/
def badChars : List Char := ['\\', '\\', '/', ':', '*', '?', '"', '<', '>', '|']

/-- The replacement loop: for ch in bad: name = name.replace(ch, underscore). -/
def stripBad (s : List Char) : List Char :=
  badChars.foldl (fun acc ch => replaceChar ch '_' acc) s

/-- Per-character view of stripBad: what the replacement chain does to one character. -/
def sanChar (c : Char) : Char :=
  badChars.foldl (fun a ch => if a = ch then '_' else a) c

/-- Python str.split() with no separator: maximal runs of non-whitespace characters. -/
def wordsOf : List Char → List (List Char)
  | [] => []
  | c :: cs =>
    if c.isWhitespace then wordsOf cs
    else
      match cs with
      | [] => [[c]]
      | d :: _ =>
        if d.isWhitespace then [c] :: wordsOf cs
        else
          match wordsOf cs with
          | [] => [[c]]
          | w :: rest => (c :: w) :: rest

/-- Python underscore.join(words). -/
def joinWords : List (List Char) → List Char
  | [] => []
  | [w] => w
  | w :: m :: rest => w ++ '_' :: joinWords (m :: rest)

/-- Embedding of sanitize_filename: fallback for the empty string, replacement of
forbidden characters, whitespace runs collapsed to single underscores, truncation
to 120 characters. -/
def sanitize_filename (name : String) : String :=
  let n := if name = "" then "unknown_report" else name
  ⟨(joinWords (wordsOf (stripBad n.data))).take 120⟩

/-! ## is_zip (src/app.py lines 61-62) -/

/-- Embedding of is_zip: length strictly above 4 and the PK local-file-header magic. -/
def is_zip (content : List Nat) : Bool :=
  decide (content.length > 4) && content.take 4 == [80, 75, 3, 4]

/-! ## download_zip_bytes (src/app.py lines 187-194) -/

/-- One HTTP response as seen by the program. -/
structure HttpResp where
  status_code : Nat
  content : List Nat
  deriving DecidableEq

/-- Embedding of download_zip_bytes: the bytes when the response is HTTP 200 and
sniffs as a ZIP archive, the explicit none signal otherwise. -/
def download_zip_bytes (r : HttpResp) : Option (List Nat) :=
  if r.status_code = 200 && is_zip r.content then some r.content else none

/-- Python truthiness of an Optional bytes value: none and the empty buffer are falsy. -/
def truthyBytes : Option (List Nat) → Bool
  | none => false
  | some b => !b.isEmpty

/-! ## Generic stable insertion sort (model of the sort_values calls) -/

/-- Insertion of one element in front of the first element it compares at-or-before. -/
def insertLe {α : Type} (le : α → α → Bool) (x : α) : List α → List α
  | [] => [x]
  | y :: ys => if le x y then x :: y :: ys else y :: insertLe le x ys

/-- Insertion sort by a boolean comparison. -/
def sortByLe {α : Type} (le : α → α → Bool) : List α → List α
  | [] => []
  | x :: xs => insertLe le x (sortByLe le xs)

/-! ## Company directory and search_companies (src/app.py lines 133-157) -/

/-- One row of the company master: corp_code, corp_name, stock_code
(empty string when unlisted). -/
structure CompanyRecord where
  corp_code : String
  corp_name : String
  stock_code : String
  deriving DecidableEq

/-- Sort key for the listed-company column, ascending: a non-empty stock code
(the __listed column sorted descending) comes first. -/
def listedN (r : CompanyRecord) : Nat :=
  if r.stock_code = "" then 1 else 0

/-- Comparison used inside one rank block: listed companies first,
ties broken by company name ascending. -/
def recLe (a b : CompanyRecord) : Bool :=
  decide (listedN a < listedN b) ||
    (listedN a == listedN b && strLe a.corp_name b.corp_name)

/-- A company row tagged with its __rank column (0 exact, 1 partial). -/
structure RankedRow where
  company : CompanyRecord
  rank : Nat
  deriving DecidableEq

/-- The sort_values key of search_companies: rank ascending, then listed
descending, then company name ascending. -/
def rowLe (a b : RankedRow) : Bool :=
  decide (a.rank < b.rank) || (a.rank == b.rank && recLe a.company b.company)

/-- Exact match mask: whitespace-free casefolded name equals the casefolded
whitespace-free query. -/
def exactM (qn : List Char) (r : CompanyRecord) : Bool :=
  lowerAll (dropWs r.corp_name.data) == lowerAll qn

/-- Partial match mask: case-insensitive substring containment of the
whitespace-free query in the whitespace-free name. -/
def partM (qn : List Char) (r : CompanyRecord) : Bool :=
  occursIn (lowerAll qn) (lowerAll (dropWs r.corp_name.data))

/-- Embedding of search_companies: blank query returns nothing; otherwise the
exact matches ranked 0 and the partial-but-not-exact matches ranked 1 are
concatenated, sorted by (rank, listed desc, name), and capped at 200 rows. -/
def search_companies (master : List CompanyRecord) (query : String) : List CompanyRecord :=
  let q := pyStrip query.data
  if q = [] then []
  else
    let qn := dropWs q
    let ex := master.filter (exactM qn)
    let pt := master.filter (fun r => partM qn r && !exactM qn r)
    let res := ex.map (fun r => RankedRow.mk r 0) ++ pt.map (fun r => RankedRow.mk r 1)
    ((sortByLe rowLe res).take 200).map RankedRow.company

/-! ## fetch_list (src/app.py lines 159-185) -/

/-- One filing row of list.json.  The two optional report-name keys model the
dict lookups it.get(report_nm) / it.get(rpt_nm). -/
structure FilingItem where
  rcept_no : String
  rcept_dt : String
  report_nm : Option String
  rpt_nm : Option String
  deriving DecidableEq

/-- One parsed page of the list.json endpoint. -/
structure ListPage where
  status : String
  message : Option String
  list : Option (List FilingItem)
  total_count : Option Nat
  deriving DecidableEq

/-- Pagination loop of fetch_list, with explicit fuel for the while-True loop:
none means the fuel ran out before a stop condition was met.  A page whose
status is not the success sentinel raises; otherwise its items are appended
and the loop stops once the accumulated count reaches the reported total or
the page carried no items.  The returned pair is (items, last page fetched). -/
def fetchListAux (pages : Nat → ListPage) :
    Nat → List FilingItem → Nat → Option (Except (Option String) (List FilingItem × Nat))
  | 0, _, _ => none
  | fuel + 1, out, page_no =>
    let p := pages page_no
    if p.status ≠ "000" then some (Except.error p.message)
    else
      let items := p.list.getD []
      let out2 := out ++ items
      if (p.total_count.getD 0) ≤ out2.length ∨ items = [] then
        some (Except.ok (out2, page_no))
      else fetchListAux pages fuel out2 (page_no + 1)

/-- Embedding of fetch_list: drain the pages starting at page 1. -/
def fetch_list (pages : Nat → ListPage) (fuel : Nat) :
    Option (Except (Option String) (List FilingItem × Nat)) :=
  fetchListAux pages fuel [] 1

/-! ## The batch loop of the download action (src/app.py lines 330-360) -/

/-- Python `a or b or default` over two optional strings, where the empty
string is falsy. -/
def orStr (o : Option String) (d : String) : String :=
  match o with
  | some s => if s = "" then d else s
  | none => d

/-- Report name fallback chain: report_nm, then rpt_nm, then the fixed literal. -/
def reportNameOf (it : FilingItem) : String :=
  orStr it.report_nm (orStr it.rpt_nm "unknown_report")

/-- Member name written into the bundle for one filing. -/
def memberName (it : FilingItem) : String :=
  sanitize_filename (it.rcept_dt ++ "_" ++ reportNameOf it ++ "_" ++ it.rcept_no) ++ ".zip"

/-- Failure marker recorded when the download of one filing did not succeed. -/
def failName (rcept_no : String) : String :=
  rcept_no ++ ".zip (다운로드 실패)"

/-- One row of the summary table. -/
structure SummaryRow where
  corp_name : String
  corp_code : String
  report_nm : String
  rcept_no : String
  rcept_dt : String
  zip_saved : String
  dart_link : String
  deriving DecidableEq

/-- The summary row appended for one filing, given the recorded file name. -/
def rowOf (cn cc : String) (it : FilingItem) (zsaved : String) : SummaryRow :=
  { corp_name := cn
    corp_code := cc
    report_nm := reportNameOf it
    rcept_no := it.rcept_no
    rcept_dt := it.rcept_dt
    zip_saved := zsaved
    dart_link := "https://dart.fss.or.kr/dsaf001/main.do?rcpNo=" ++ it.rcept_no }

/-- Is this row marked with the download-failure marker of its own receipt number? -/
def failMarkerRow (r : SummaryRow) : Bool :=
  r.zip_saved == failName r.rcept_no

/-- The per-filing loop: each item is downloaded once; a truthy result writes one
bundle member under memberName and records that name, anything else records the
failure marker and writes nothing.  Every item contributes exactly one row. -/
def run_batch (cn cc : String) (resp : String → HttpResp) :
    List FilingItem → List (String × List Nat) × List SummaryRow
  | [] => ([], [])
  | it :: rest =>
    let content := download_zip_bytes (resp it.rcept_no)
    let prev := run_batch cn cc resp rest
    if truthyBytes content then
      ((memberName it, content.getD []) :: prev.1, rowOf cn cc it (memberName it) :: prev.2)
    else
      (prev.1, rowOf cn cc it (failName it.rcept_no) :: prev.2)

/-- The final sort of the summary: submission date descending, report name ascending. -/
def sumLe (a b : SummaryRow) : Bool :=
  (!strLe a.rcept_dt b.rcept_dt || a.rcept_dt == b.rcept_dt) &&
    (!(a.rcept_dt == b.rcept_dt) || strLe a.report_nm b.report_nm)

/-- Embedding of the whole download action after fetch_list: the bundle members
and the sorted summary. -/
def run_download (cn cc : String) (resp : String → HttpResp) (items : List FilingItem) :
    List (String × List Nat) × List SummaryRow :=
  ((run_batch cn cc resp items).1, sortByLe sumLe (run_batch cn cc resp items).2)

/-! ## fetch_corp_master (src/app.py lines 64-131) -/

/-- Python truthiness of an optional string: None and the empty string are falsy. -/
def truthyStr : Option String → Bool
  | none => false
  | some s => !(s == "")

/-- Python str() of an optional string as interpolated into an f-string. -/
def pyStr : Option String → String
  | none => "None"
  | some s => s

/-- The corpCode.xml response together with the parse views the code computes
from it: the JSON envelope view of the decoded body (none when json.loads
raises), the XML message view (none when ET.fromstring raises, otherwise the
findtext message-or-msg chain with empty default), and the ZIP view (the
records extracted from the single XML member, or the error text when the
zipfile or XML handling raises). -/
structure CorpResp where
  status_code : Nat
  content : List Nat
  content_type : String
  json_env : Option (Option String × Option String)
  xml_msg : Option String
  zip_view : Except String (List CompanyRecord)

/-- The error the JSON try-block attempts to raise: a RuntimeError carrying the
status/message envelope when either field is truthy. -/
def jsonBlockError (env : Option (Option String × Option String)) : Except String Unit :=
  match env with
  | none => Except.error "json parse failure"
  | some (status, message) =>
    if truthyStr status || truthyStr message then
      Except.error ("OpenDART 오류(status=" ++ pyStr status ++ "): " ++ pyStr message)
    else Except.ok ()

/-- The error the XML try-block attempts to raise: a RuntimeError carrying the
message element when its stripped text is non-empty. -/
def xmlBlockError (xml : Option String) : Except String Unit :=
  match xml with
  | none => Except.error "xml parse failure"
  | some m =>
    if pyStrip m.data ≠ [] then
      Except.error ("OpenDART 오류: " ++ String.mk (pyStrip m.data))
    else Except.ok ()

/-- The except-Exception-pass handler wrapped around each block: it catches
every exception, including the RuntimeError the block itself raises. -/
def exceptPass (b : Except String Unit) : Except String Unit :=
  match b with
  | Except.ok () => Except.ok ()
  | Except.error _ => Except.ok ()

/-- Sequencing after a guarded block: only an exception escaping the handler
would preempt the continuation. -/
def runGuarded (b : Except String Unit) (k : String) : String :=
  match exceptPass b with
  | Except.ok () => k
  | Except.error e => e

/-- The error message raised on a non-ZIP response: the JSON and XML blocks run
first under their handlers, then the HTML hint or the generic message. -/
def nonZipErrorMsg (r : CorpResp) : String :=
  runGuarded (jsonBlockError r.json_env)
    (runGuarded (xmlBlockError r.xml_msg)
      (let hint :=
        if r.status_code ≠ 0 ∧ r.status_code ≠ 200 then
          " (HTTP " ++ toString r.status_code ++ ")"
        else ""
      if occursIn "html".data (lowerAll r.content_type.data) then
        "OpenDART에서 ZIP이 아닌 HTML 응답을 반환했습니다" ++ hint ++
          ". 잠시 후 다시 시도하거나 API Key/한도를 확인하세요."
      else "OpenDART에서 ZIP이 아닌 응답을 반환했습니다. API Key/요청 상태를 확인하세요."))

/-- Embedding of fetch_corp_master: empty key and transport failure raise first;
a response that neither sniffs as ZIP nor declares a ZIP content type raises
the non-ZIP error; otherwise the ZIP view yields the company records. -/
def fetch_corp_master (api_key : String) (net : Option CorpResp) :
    Except String (List CompanyRecord) :=
  if pyStrip api_key.data = [] then
    Except.error "API Key가 비어 있습니다. 올바른 키를 입력하세요."
  else
    match net with
    | none => Except.error "네트워크 오류"
    | some r =>
      if !(is_zip r.content || occursIn "zip".data (lowerAll r.content_type.data)) then
        Except.error (nonZipErrorMsg r)
      else
        match r.zip_view with
        | Except.error e => Except.error e
        | Except.ok rows => Except.ok rows

/-- Decidable equality on Except values, needed to evaluate the models. -/
instance {ε α : Type} [DecidableEq ε] [DecidableEq α] : DecidableEq (Except ε α) := fun x y =>
  match x, y with
  | Except.ok a, Except.ok b => decidable_of_iff (a = b) (by simp)
  | Except.error a, Except.error b => decidable_of_iff (a = b) (by simp)
  | Except.ok _, Except.error _ => isFalse (fun h => by cases h)
  | Except.error _, Except.ok _ => isFalse (fun h => by cases h)

/-! ## Concrete fixtures used by witnesses and counterexamples -/

/-- A fixed filing item reused by the pagination fixtures. -/
def itemA : FilingItem :=
  { rcept_no := "20240101000001", rcept_dt := "20240102"
    report_nm := some "사업보고서", rpt_nm := none }

/-- A consistent endpoint: 250 filings served as pages of 100, 100 and 50. -/
def pages250 : Nat → ListPage := fun n =>
  if n = 1 ∨ n = 2 then
    { status := "000", message := none
      list := some (List.replicate 100 itemA), total_count := some 250 }
  else if n = 3 then
    { status := "000", message := none
      list := some (List.replicate 50 itemA), total_count := some 250 }
  else
    { status := "000", message := none, list := some [], total_count := some 250 }

/-- An inconsistent endpoint: the reported total stays at 250 but the second
page already comes back empty. -/
def pagesE : Nat → ListPage := fun n =>
  if n = 1 then
    { status := "000", message := none
      list := some (List.replicate 100 itemA), total_count := some 250 }
  else
    { status := "000", message := none, list := some [], total_count := some 250 }

/-- An endpoint whose first page is non-empty but reports no total at all. -/
def pages0 : Nat → ListPage := fun _ =>
  { status := "000", message := none, list := some [itemA], total_count := none }

/-- A well-formed ZIP body: the PK magic followed by one more byte. -/
def zipOkBytes : List Nat := [80, 75, 3, 4, 0]

/-- Five filing items; the downloads of all but the third succeed. -/
def items5 : List FilingItem :=
  [ { rcept_no := "R1", rcept_dt := "20240105", report_nm := some "A", rpt_nm := none }
  , { rcept_no := "R2", rcept_dt := "20240104", report_nm := some "B", rpt_nm := none }
  , { rcept_no := "R3", rcept_dt := "20240103", report_nm := some "C", rpt_nm := none }
  , { rcept_no := "R4", rcept_dt := "20240102", report_nm := some "D", rpt_nm := none }
  , { rcept_no := "R5", rcept_dt := "20240101", report_nm := some "E", rpt_nm := none } ]

/-- The document endpoint behind items5: item R3 is missing, the rest are ZIPs. -/
def resp5 : String → HttpResp := fun rn =>
  if rn = "R3" then { status_code := 404, content := [60, 101] }
  else { status_code := 200, content := zipOkBytes }

/-- A non-ZIP JSON error response from corpCode.xml: HTTP 200, JSON content type,
a decoded status/message envelope, no XML view, no ZIP view. -/
def c2resp : CorpResp :=
  { status_code := 200
    content := [123, 34, 115, 116, 97, 116, 117, 115, 34, 125]
    content_type := "application/json"
    json_env := some (some "020", some "사용한도 초과")
    xml_msg := none
    zip_view := Except.error "unreached" }

/-- A two-company master used by the search witnesses. -/
def master2 : List CompanyRecord :=
  [ { corp_code := "00000001", corp_name := "AB", stock_code := "" }
  , { corp_code := "00000002", corp_name := "A", stock_code := "005930" } ]

end Dart

namespace Dart

/-! ## Lemmas about the insertion sort -/

theorem perm_insertLe {α : Type} (le : α → α → Bool) (x : α) (l : List α) :
    (insertLe le x l).Perm (x :: l) := by
  induction l with
  | nil => simp [insertLe]
  | cons y ys ih =>
    cases hxy : le x y with
    | true => simp [insertLe, hxy]
    | false =>
      simp only [insertLe, hxy, Bool.false_eq_true, if_false]
      exact (List.Perm.cons y ih).trans (List.Perm.swap x y ys)

theorem perm_sortByLe {α : Type} (le : α → α → Bool) (l : List α) :
    (sortByLe le l).Perm l := by
  induction l with
  | nil => simp [sortByLe]
  | cons x xs ih =>
    exact (perm_insertLe le x (sortByLe le xs)).trans (List.Perm.cons x ih)

theorem mem_sortByLe {α : Type} (le : α → α → Bool) (l : List α) (a : α) :
    a ∈ sortByLe le l ↔ a ∈ l :=
  (perm_sortByLe le l).mem_iff

theorem length_sortByLe {α : Type} (le : α → α → Bool) (l : List α) :
    (sortByLe le l).length = l.length :=
  (perm_sortByLe le l).length_eq

theorem head?_insertLe {α : Type} (le : α → α → Bool) (x : α) (l : List α) :
    (insertLe le x l).head? = some x ∨ (insertLe le x l).head? = l.head? := by
  cases l with
  | nil => left; simp [insertLe]
  | cons y ys =>
    cases hxy : le x y with
    | true => left; simp [insertLe, hxy]
    | false => right; simp [insertLe, hxy]

theorem chain'_insertLe {α : Type} (le : α → α → Bool)
    (htot : ∀ a b, le a b = true ∨ le b a = true) (x : α) (l : List α)
    (h : List.Chain' (fun a b => le a b = true) l) :
    List.Chain' (fun a b => le a b = true) (insertLe le x l) := by
  induction l with
  | nil => simp [insertLe]
  | cons y ys ih =>
    rw [List.chain'_cons'] at h
    cases hxy : le x y with
    | true =>
      simp only [insertLe, hxy, if_true]
      rw [List.chain'_cons']
      refine ⟨?_, (List.chain'_cons').2 h⟩
      intro z hz
      simp only [List.head?_cons, Option.mem_def, Option.some.injEq] at hz
      rw [← hz]; exact hxy
    | false =>
      simp only [insertLe, hxy, Bool.false_eq_true, if_false]
      rw [List.chain'_cons']
      constructor
      · intro z hz
        rcases head?_insertLe le x ys with he | he
        · rw [he] at hz
          simp only [Option.mem_def, Option.some.injEq] at hz
          rw [← hz]
          rcases htot x y with h1 | h1
          · rw [h1] at hxy; cases hxy
          · exact h1
        · rw [he] at hz
          exact h.1 z hz
      · exact ih h.2

theorem chain'_sortByLe {α : Type} (le : α → α → Bool)
    (htot : ∀ a b, le a b = true ∨ le b a = true) (l : List α) :
    List.Chain' (fun a b => le a b = true) (sortByLe le l) := by
  induction l with
  | nil => simp [sortByLe]
  | cons x xs ih => exact chain'_insertLe le htot x _ ih

theorem insertLe_append {α : Type} (le : α → α → Bool) (x : α) (l₁ l₂ : List α)
    (h : ∀ b ∈ l₂, le x b = true) :
    insertLe le x (l₁ ++ l₂) = insertLe le x l₁ ++ l₂ := by
  induction l₁ with
  | nil =>
    cases l₂ with
    | nil => simp [insertLe]
    | cons b bs => simp [insertLe, h b (by simp)]
  | cons z zs ih =>
    cases hxz : le x z with
    | true => simp [insertLe, hxz]
    | false => simp [insertLe, hxz, ih]

theorem sortByLe_append_blocks {α : Type} (le : α → α → Bool) (l₁ l₂ : List α)
    (h : ∀ a ∈ l₁, ∀ b ∈ l₂, le a b = true) :
    sortByLe le (l₁ ++ l₂) = sortByLe le l₁ ++ sortByLe le l₂ := by
  induction l₁ with
  | nil => simp [sortByLe]
  | cons x xs ih =>
    simp only [List.cons_append, sortByLe, List.append_eq]
    rw [ih (fun a ha b hb => h a (by simp [ha]) b hb)]
    exact insertLe_append le x _ _
      (fun b hb => h x (by simp) b ((mem_sortByLe le l₂ b).1 hb))

theorem insertLe_map {α β : Type} (f : α → β) (leA : α → α → Bool) (leB : β → β → Bool)
    (hc : ∀ a b, leB (f a) (f b) = leA a b) (x : α) (l : List α) :
    insertLe leB (f x) (l.map f) = (insertLe leA x l).map f := by
  induction l with
  | nil => simp [insertLe]
  | cons y ys ih =>
    simp only [List.map_cons, insertLe, hc]
    cases hxy : leA x y with
    | true => simp [hxy]
    | false => simp [hxy, ih]

theorem sortByLe_map {α β : Type} (f : α → β) (leA : α → α → Bool) (leB : β → β → Bool)
    (hc : ∀ a b, leB (f a) (f b) = leA a b) (l : List α) :
    sortByLe leB (l.map f) = (sortByLe leA l).map f := by
  induction l with
  | nil => simp [sortByLe]
  | cons x xs ih =>
    simp only [List.map_cons, sortByLe]
    rw [ih]
    exact insertLe_map f leA leB hc x (sortByLe leA xs)

/-! ## Lemmas about sanitize_filename -/

theorem foldl_replace_map (L : List Char) (s : List Char) :
    L.foldl (fun acc ch => replaceChar ch '_' acc) s
      = s.map (fun c => L.foldl (fun a ch => if a = ch then '_' else a) c) := by
  induction L generalizing s with
  | nil => simp
  | cons ch L' ih =>
    simp only [List.foldl_cons]
    rw [ih (replaceChar ch '_' s)]
    simp [replaceChar, List.map_map, Function.comp_def]

theorem stripBad_eq_map (s : List Char) : stripBad s = s.map sanChar :=
  foldl_replace_map badChars s

theorem sanChar_eq (c : Char) : sanChar c = if c ∈ badChars then '_' else c := by
  by_cases hc : c ∈ badChars
  · rw [if_pos hc]
    fin_cases hc <;> decide
  · rw [if_neg hc]
    simp only [badChars, List.mem_cons, List.not_mem_nil, or_false, not_or] at hc
    obtain ⟨h1, h1b, h2, h3, h4, h5, h6, h7, h8, h9⟩ := hc
    simp [sanChar, badChars, h1, h2, h3, h4, h5, h6, h7, h8, h9]

theorem sanChar_not_bad (c : Char) : sanChar c ∉ badChars := by
  rw [sanChar_eq]
  split_ifs with h
  · decide
  · exact h

theorem sanChar_ws (c : Char) : (sanChar c).isWhitespace = c.isWhitespace := by
  rw [sanChar_eq]
  split_ifs with h
  · fin_cases h <;> decide
  · rfl

theorem words_mem_ne_nil (l : List Char) : ∀ w ∈ wordsOf l, w ≠ [] := by
  induction l with
  | nil => simp [wordsOf]
  | cons c cs ih =>
    intro w hw
    cases hcw : c.isWhitespace with
    | true =>
      simp only [wordsOf, hcw, if_true] at hw
      exact ih w hw
    | false =>
      simp only [wordsOf, hcw, Bool.false_eq_true, if_false] at hw
      cases cs with
      | nil => simp at hw; subst hw; simp
      | cons d ds =>
        cases hdw : d.isWhitespace with
        | true =>
          simp only [hdw, if_true, List.mem_cons] at hw
          rcases hw with h | h
          · subst h; simp
          · exact ih w h
        | false =>
          simp only [hdw, Bool.false_eq_true, if_false] at hw
          cases hwc : wordsOf (d :: ds) with
          | nil => rw [hwc] at hw; simp at hw; subst hw; simp
          | cons w' rest =>
            rw [hwc] at hw
            simp only [List.mem_cons] at hw
            rcases hw with h | h
            · subst h; simp
            · exact ih w (by rw [hwc]; simp [h])

theorem words_chars (l : List Char) : ∀ w ∈ wordsOf l, ∀ c ∈ w, c ∈ l := by
  induction l with
  | nil => simp [wordsOf]
  | cons c cs ih =>
    intro w hw x hx
    cases hcw : c.isWhitespace with
    | true =>
      simp only [wordsOf, hcw, if_true] at hw
      exact List.mem_cons_of_mem c (ih w hw x hx)
    | false =>
      simp only [wordsOf, hcw, Bool.false_eq_true, if_false] at hw
      cases cs with
      | nil =>
        simp at hw; subst hw
        simp only [List.mem_singleton] at hx
        subst hx; simp
      | cons d ds =>
        cases hdw : d.isWhitespace with
        | true =>
          simp only [hdw, if_true, List.mem_cons] at hw
          rcases hw with h | h
          · subst h
            simp only [List.mem_singleton] at hx
            subst hx; simp
          · exact List.mem_cons_of_mem c (ih w h x hx)
        | false =>
          simp only [hdw, Bool.false_eq_true, if_false] at hw
          cases hwc : wordsOf (d :: ds) with
          | nil => rw [hwc] at hw; simp at hw; subst hw; simp at hx; subst hx; simp
          | cons w' rest =>
            rw [hwc] at hw
            simp only [List.mem_cons] at hw
            rcases hw with h | h
            · subst h
              simp only [List.mem_cons] at hx
              rcases hx with h' | h'
              · subst h'; simp
              · exact List.mem_cons_of_mem c (ih w' (by rw [hwc]; simp) x h')
            · exact List.mem_cons_of_mem c (ih w (by rw [hwc]; simp [h]) x hx)

theorem words_ne_nil (l : List Char) (h : ∃ c ∈ l, c.isWhitespace = false) :
    wordsOf l ≠ [] := by
  induction l with
  | nil => simp at h
  | cons c cs ih =>
    cases hcw : c.isWhitespace with
    | true =>
      simp only [wordsOf, hcw, if_true]
      apply ih
      rcases h with ⟨c₀, hmem, hws⟩
      rcases List.mem_cons.1 hmem with h' | h'
      · subst h'; rw [hcw] at hws; cases hws
      · exact ⟨c₀, h', hws⟩
    | false =>
      simp only [wordsOf, hcw, Bool.false_eq_true, if_false]
      cases cs with
      | nil => simp
      | cons d ds =>
        cases hdw : d.isWhitespace with
        | true => simp [hdw]
        | false =>
          simp only [hdw, Bool.false_eq_true, if_false]
          cases hwc : wordsOf (d :: ds) <;> simp

theorem joinWords_chars (ws : List (List Char)) :
    ∀ c ∈ joinWords ws, c = '_' ∨ ∃ w ∈ ws, c ∈ w := by
  induction ws with
  | nil => simp [joinWords]
  | cons w tail ih =>
    cases tail with
    | nil =>
      intro c hc
      simp only [joinWords] at hc
      right; exact ⟨w, by simp, hc⟩
    | cons m rest =>
      intro c hc
      simp only [joinWords] at hc
      rw [List.mem_append] at hc
      rcases hc with h | h
      · right; exact ⟨w, by simp, h⟩
      · simp only [List.mem_cons] at h
        rcases h with h | h
        · left; exact h
        · rcases ih c h with h' | ⟨w', hw', hc'⟩
          · left; exact h'
          · right; exact ⟨w', List.mem_cons_of_mem w hw', hc'⟩

theorem joinWords_ne_nil (ws : List (List Char)) (h0 : ws ≠ [])
    (hne : ∀ w ∈ ws, w ≠ []) : joinWords ws ≠ [] := by
  cases ws with
  | nil => exact absurd rfl h0
  | cons w tail =>
    cases tail with
    | nil => exact hne w (by simp)
    | cons m rest => simp [joinWords]

theorem take120_ne_nil (l : List Char) (h : l ≠ []) : l.take 120 ≠ [] := by
  cases l with
  | nil => exact absurd rfl h
  | cons x xs =>
    rw [show (120 : Nat) = 119 + 1 from rfl, List.take_succ_cons]
    simp

/-- Membership in the output characters of sanitize_filename comes from the
cleaned input or is the underscore. -/
theorem sanitize_chars (s : String) :
    ∀ c ∈ (sanitize_filename s).data, c ∉ badChars := by
  intro c hc
  have hc' : c ∈ joinWords (wordsOf (stripBad
      (if s = "" then "unknown_report" else s).data)) :=
    List.take_subset 120 _ hc
  rcases joinWords_chars _ c hc' with h | ⟨w, hw, hcw⟩
  · subst h; decide
  · have : c ∈ stripBad (if s = "" then "unknown_report" else s).data :=
      words_chars _ w hw c hcw
    rw [stripBad_eq_map] at this
    rcases List.mem_map.1 this with ⟨c₀, _, heq⟩
    rw [← heq]
    exact sanChar_not_bad c₀

/-- C1 (amended): the sanitizer output never contains a forbidden character and
is at most 120 characters long; the empty input maps to the fallback literal;
and the output is non-empty whenever the input contains a non-whitespace
character.  (A non-empty whitespace-only input yields the empty string.) -/
theorem sanitize_filename_spec (s : String) :
    (∀ c ∈ (sanitize_filename s).data, c ∉ badChars)
    ∧ (sanitize_filename s).length ≤ 120
    ∧ (s = "" → sanitize_filename s = "unknown_report")
    ∧ ((∃ c ∈ s.data, c.isWhitespace = false) → sanitize_filename s ≠ "") := by
  refine ⟨sanitize_chars s, ?_, ?_, ?_⟩
  · show (List.take 120 _).length ≤ 120
    exact List.length_take_le 120 _
  · intro h; subst h; decide
  · intro hex
    have hsne : ¬ s = "" := by
      intro h; subst h; simp at hex
    have hn : (if s = "" then "unknown_report" else s) = s := if_neg hsne
    rcases hex with ⟨c₀, hmem, hws⟩
    have hex2 : ∃ c ∈ stripBad s.data, c.isWhitespace = false := by
      refine ⟨sanChar c₀, ?_, ?_⟩
      · rw [stripBad_eq_map]; exact List.mem_map_of_mem sanChar hmem
      · rw [sanChar_ws]; exact hws
    have hwo : wordsOf (stripBad s.data) ≠ [] := words_ne_nil _ hex2
    have hjw : joinWords (wordsOf (stripBad s.data)) ≠ [] :=
      joinWords_ne_nil _ hwo (words_mem_ne_nil _)
    have htk := take120_ne_nil _ hjw
    intro hcon
    apply htk
    have : (sanitize_filename s).data = [] := by rw [hcon]
    simpa [sanitize_filename, hn] using this

/-- Witness for sanitize_filename_spec at concrete inputs. -/
theorem sanitize_filename_spec_witness :
    (("" : String) = "" ∧ sanitize_filename "" = "unknown_report")
    ∧ ((∃ c ∈ ("a b:c" : String).data, c.isWhitespace = false)
        ∧ sanitize_filename "a b:c" ≠ "") :=
  ⟨⟨rfl, (sanitize_filename_spec "").2.2.1 rfl⟩,
    ⟨⟨'a', by decide, by decide⟩,
      (sanitize_filename_spec "a b:c").2.2.2 ⟨'a', by decide, by decide⟩⟩⟩

/-- C1 counterexample: a whitespace-only input yields the empty string, so the
claimed non-emptiness for whitespace-only inputs fails. -/
theorem sanitize_whitespace_only_empty : sanitize_filename " " = "" := by decide

/-! ## C8: the archive sniffer -/

/-- C8: is_zip is true exactly when the buffer is longer than 4 bytes and its
first four bytes are the PK local-file-header magic; every buffer of length at
most 4 is rejected. -/
theorem is_zip_spec (b : List Nat) :
    (is_zip b = true ↔ 4 < b.length ∧ b.take 4 = [80, 75, 3, 4])
    ∧ (b.length ≤ 4 → is_zip b = false) := by
  constructor
  · simp [is_zip, gt_iff_lt]
  · intro h
    have h4 : ¬ (4 < b.length) := Nat.not_lt.2 h
    simp [is_zip, h4]

/-- Witness for is_zip_spec at a short concrete buffer. -/
theorem is_zip_spec_witness :
    ([1, 2, 3] : List Nat).length ≤ 4 ∧ is_zip [1, 2, 3] = false :=
  ⟨by decide, (is_zip_spec [1, 2, 3]).2 (by decide)⟩

/-! ## C4: the filing archive downloader -/

/-- C4: download_zip_bytes returns the body exactly when the response is
HTTP 200 and the body sniffs as a ZIP archive; in every other case it returns
the explicit none signal, and whatever it returns is the response body - it is
a total function over responses, never an exception. -/
theorem download_zip_bytes_spec (r : HttpResp) :
    (download_zip_bytes r = some r.content
      ↔ r.status_code = 200 ∧ is_zip r.content = true)
    ∧ ((¬ (r.status_code = 200 ∧ is_zip r.content = true)) → download_zip_bytes r = none)
    ∧ (∀ b, download_zip_bytes r = some b → b = r.content) := by
  have hd : download_zip_bytes r =
      (if (decide (r.status_code = 200) && is_zip r.content) = true then
        some r.content else none) := rfl
  cases hcase : (decide (r.status_code = 200) && is_zip r.content) with
  | true =>
    have h : r.status_code = 200 ∧ is_zip r.content = true := by simpa using hcase
    rw [hcase] at hd
    simp only [if_pos rfl] at hd
    exact ⟨⟨fun _ => h, fun _ => hd⟩, fun hc => absurd h hc,
      fun b hb => by rw [hd] at hb; exact (Option.some_inj.1 hb).symm⟩
  | false =>
    have h : ¬ (r.status_code = 200 ∧ is_zip r.content = true) := by
      intro hc
      simp [hc.1, hc.2] at hcase
    rw [hcase] at hd
    simp only [Bool.false_eq_true, if_false] at hd
    have mp1 : download_zip_bytes r = some r.content →
        r.status_code = 200 ∧ is_zip r.content = true := by
      intro hn; rw [hd] at hn; cases hn
    have mp3 : ∀ b, download_zip_bytes r = some b → b = r.content := by
      intro b hb; rw [hd] at hb; cases hb
    exact ⟨⟨mp1, fun hc => absurd hc h⟩, fun _ => hd, mp3⟩

/-- Witness for download_zip_bytes_spec at a 404 response. -/
theorem download_zip_bytes_spec_witness :
    (¬ ((404 : Nat) = 200 ∧ is_zip [60, 101] = true))
    ∧ download_zip_bytes { status_code := 404, content := [60, 101] } = none :=
  ⟨by decide, (download_zip_bytes_spec { status_code := 404, content := [60, 101] }).2.1
    (by decide)⟩

/-! ## Totality of the comparison functions -/

theorem listLe_total (a b : List Char) : listLe a b = true ∨ listLe b a = true := by
  induction a generalizing b with
  | nil => left; rfl
  | cons x xs ih =>
    cases b with
    | nil => right; rfl
    | cons y ys =>
      by_cases hxy : x = y
      · subst hxy
        rcases ih ys with h | h
        · left; simp [listLe, h]
        · right; simp [listLe, h]
      · have hyx : ¬ y = x := fun h => hxy h.symm
        rcases lt_trichotomy x y with h | h | h
        · left; simp [listLe, hxy, h]
        · exact absurd h hxy
        · right; simp [listLe, hyx, h]

theorem strLe_total (a b : String) : strLe a b = true ∨ strLe b a = true :=
  listLe_total a.data b.data

theorem recLe_total (a b : CompanyRecord) : recLe a b = true ∨ recLe b a = true := by
  unfold recLe
  rcases Nat.lt_trichotomy (listedN a) (listedN b) with h | h | h
  · left; simp [h]
  · rcases strLe_total a.corp_name b.corp_name with hs | hs
    · left; simp [h, hs]
    · right; simp [h, hs]
  · right; simp [h]

theorem listLe_antisymm (a b : List Char) (h1 : listLe a b = true)
    (h2 : listLe b a = true) : a = b := by
  induction a generalizing b with
  | nil =>
    cases b with
    | nil => rfl
    | cons y ys => simp [listLe] at h2
  | cons x xs ih =>
    cases b with
    | nil => simp [listLe] at h1
    | cons y ys =>
      by_cases hxy : x = y
      · subst hxy
        simp only [listLe, if_pos rfl] at h1 h2
        rw [ih ys h1 h2]
      · have hyx : ¬ y = x := fun h => hxy h.symm
        simp only [listLe, if_neg hxy, decide_eq_true_eq] at h1
        simp only [listLe, if_neg hyx, decide_eq_true_eq] at h2
        exact absurd h1 (asymm h2)

theorem strLe_antisymm (a b : String) (h1 : strLe a b = true)
    (h2 : strLe b a = true) : a = b := by
  exact String.ext (listLe_antisymm a.data b.data h1 h2)

theorem strLe_false_of (a b : String) (hne : a ≠ b) (h : strLe a b = true) :
    strLe b a = false := by
  cases hcase : strLe b a with
  | false => rfl
  | true => exact absurd (strLe_antisymm b a hcase h) (fun he => hne he.symm)

theorem sumLe_total (a b : SummaryRow) : sumLe a b = true ∨ sumLe b a = true := by
  unfold sumLe
  by_cases hd : a.rcept_dt = b.rcept_dt
  · rcases strLe_total a.report_nm b.report_nm with hs | hs
    · left; simp [hd, hs]
    · right; simp [hd, hs]
  · have hd2 : b.rcept_dt ≠ a.rcept_dt := fun h => hd h.symm
    rcases strLe_total a.rcept_dt b.rcept_dt with hs | hs
    · right
      have hf : strLe b.rcept_dt a.rcept_dt = false := strLe_false_of _ _ hd hs
      simp [hf, beq_iff_eq, hd2]
    · left
      have hf : strLe a.rcept_dt b.rcept_dt = false := strLe_false_of _ _ hd2 hs
      simp [hf, beq_iff_eq, hd]

/-! ## C7: blank queries -/

/-! ## C6: search ranking -/

/-- C6: for a non-blank query the search result is exactly the exact-match
records (rank 0) followed by the partial-but-not-exact records (rank 1), each
block sorted with listed companies first and ties broken by name ascending,
truncated to 200 rows; non-matching records never appear.  The block sort only
rearranges its input (permutation) and orders it by the block comparison. -/
theorem search_companies_rank_spec (master : List CompanyRecord) (query : String) :
    (search_companies master query).length ≤ 200
    ∧ (pyStrip query.data ≠ [] →
        search_companies master query =
          ((sortByLe recLe (master.filter (exactM (dropWs (pyStrip query.data))))
            ++ sortByLe recLe (master.filter (fun r =>
                partM (dropWs (pyStrip query.data)) r
                  && !exactM (dropWs (pyStrip query.data)) r))).take 200))
    ∧ (∀ l : List CompanyRecord, (sortByLe recLe l).Perm l)
    ∧ (∀ l : List CompanyRecord,
        List.Chain' (fun a b => recLe a b = true) (sortByLe recLe l)) := by
  have main : pyStrip query.data ≠ [] →
      search_companies master query =
        ((sortByLe recLe (master.filter (exactM (dropWs (pyStrip query.data))))
          ++ sortByLe recLe (master.filter (fun r =>
              partM (dropWs (pyStrip query.data)) r
                && !exactM (dropWs (pyStrip query.data)) r))).take 200) := by
    intro hq
    unfold search_companies
    rw [if_neg hq]
    dsimp only
    have hblocks : ∀ a ∈ (master.filter (exactM (dropWs (pyStrip query.data)))).map
          (fun r => RankedRow.mk r 0),
        ∀ b ∈ (master.filter (fun r =>
            partM (dropWs (pyStrip query.data)) r
              && !exactM (dropWs (pyStrip query.data)) r)).map
          (fun r => RankedRow.mk r 1), rowLe a b = true := by
      intro a ha b hb
      rcases List.mem_map.1 ha with ⟨ra, _, hra⟩
      rcases List.mem_map.1 hb with ⟨rb, _, hrb⟩
      rw [← hra, ← hrb]
      simp [rowLe]
    rw [sortByLe_append_blocks rowLe _ _ hblocks]
    rw [sortByLe_map (fun r => RankedRow.mk r 0) recLe rowLe
      (fun a b => by simp [rowLe])]
    rw [sortByLe_map (fun r => RankedRow.mk r 1) recLe rowLe
      (fun a b => by simp [rowLe])]
    rw [List.map_take, List.map_append, List.map_map, List.map_map]
    simp [Function.comp_def]
  refine ⟨?_, main, perm_sortByLe recLe, chain'_sortByLe recLe recLe_total⟩
  by_cases hq : pyStrip query.data = []
  · simp [search_companies, hq]
  · rw [main hq]
    exact le_trans (List.length_take_le 200 _) (le_refl 200)

/-- Witness for search_companies_rank_spec on a concrete directory and query. -/
theorem search_companies_rank_spec_witness :
    pyStrip ("a" : String).data ≠ []
    ∧ search_companies master2 "a" =
        ((sortByLe recLe (master2.filter (exactM (dropWs (pyStrip ("a" : String).data))))
          ++ sortByLe recLe (master2.filter (fun r =>
              partM (dropWs (pyStrip ("a" : String).data)) r
                && !exactM (dropWs (pyStrip ("a" : String).data)) r))).take 200) :=
  ⟨by decide, (search_companies_rank_spec master2 "a").2.1 (by decide)⟩

/-- C7: a query that is empty or whitespace-only yields the empty result. -/
theorem search_companies_blank_query (master : List CompanyRecord) (q : String)
    (h : q.data.all Char.isWhitespace = true) : search_companies master q = [] := by
  have hstrip : pyStrip q.data = [] := by
    unfold pyStrip
    have h1 : q.data.dropWhile Char.isWhitespace = [] :=
      List.dropWhile_eq_nil_iff.2 (fun x hx => (List.all_eq_true.1 h) x hx)
    rw [h1]
    rfl
  simp [search_companies, hstrip]

/-- Witness for search_companies_blank_query on a whitespace query. -/
theorem search_companies_blank_query_witness :
    (("  " : String).data.all Char.isWhitespace = true)
    ∧ search_companies master2 "  " = [] :=
  ⟨by decide, search_companies_blank_query master2 "  " (by decide)⟩

/-! ## Lemmas about the batch loop (C3, C9) -/

/-- Characterization of run_batch: the summary is the per-item row map and the
bundle member names are exactly the member names of the items whose download
was truthy, in order. -/
theorem run_batch_spec (cn cc : String) (resp : String → HttpResp)
    (items : List FilingItem) :
    (run_batch cn cc resp items).2 = items.map (fun it =>
        rowOf cn cc it
          (if truthyBytes (download_zip_bytes (resp it.rcept_no)) then memberName it
           else failName it.rcept_no))
    ∧ (run_batch cn cc resp items).1.map Prod.fst
        = (items.filter (fun it =>
            truthyBytes (download_zip_bytes (resp it.rcept_no)))).map
            (fun it => memberName it) := by
  induction items with
  | nil => exact ⟨rfl, rfl⟩
  | cons it rest ih =>
    cases hdl : truthyBytes (download_zip_bytes (resp it.rcept_no)) with
    | true =>
      constructor
      · simp only [run_batch, hdl, if_true, List.map_cons, hdl, ih.1]
      · simp only [run_batch, hdl, if_true, List.map_cons, List.filter_cons, hdl, ih.2]
    | false =>
      constructor
      · simp only [run_batch, hdl, Bool.false_eq_true, if_false, List.map_cons, ih.1]
      · simp only [run_batch, hdl, Bool.false_eq_true, if_false, List.filter_cons, ih.2]

/-- C3: every filing record yields exactly one summary row whatever its
download outcome, a failed download never aborts the batch (the loop is total
and the lengths always add up), the bundle holds one member per truthy
download; and the concrete 5-item run with one failing download yields a 5-row
summary with exactly one failure marker and a 4-member bundle. -/
theorem run_download_failure_rows :
    (∀ (cn cc : String) (resp : String → HttpResp) (items : List FilingItem),
      (run_download cn cc resp items).2.length = items.length
      ∧ (run_download cn cc resp items).1.length
          = (items.filter (fun it =>
              truthyBytes (download_zip_bytes (resp it.rcept_no)))).length)
    ∧ ((run_download "corp" "cc" resp5 items5).2.length = 5
        ∧ ((run_download "corp" "cc" resp5 items5).2.filter failMarkerRow).length = 1
        ∧ (run_download "corp" "cc" resp5 items5).1.length = 4) := by
  constructor
  · intro cn cc resp items
    constructor
    · show (sortByLe sumLe (run_batch cn cc resp items).2).length = items.length
      rw [length_sortByLe, (run_batch_spec cn cc resp items).1, List.length_map]
    · show (run_batch cn cc resp items).1.length = _
      have h2 := congrArg List.length (run_batch_spec cn cc resp items).2
      simpa using h2
  · exact ⟨by decide, by decide, by decide⟩

/-- C9: every member name written into the bundle equals the
archive-filename field of the summary row built for the same successfully
downloaded filing record; every item has exactly one row, whose field is the
member name on success and the failure marker otherwise, and the final sort
only permutes those rows. -/
theorem bundle_member_names_spec (cn cc : String) (resp : String → HttpResp)
    (items : List FilingItem) :
    (run_batch cn cc resp items).1.map Prod.fst
      = (items.filter (fun it =>
          truthyBytes (download_zip_bytes (resp it.rcept_no)))).map
          (fun it => (rowOf cn cc it (memberName it)).zip_saved)
    ∧ (run_batch cn cc resp items).2 = items.map (fun it =>
        rowOf cn cc it
          (if truthyBytes (download_zip_bytes (resp it.rcept_no)) then memberName it
           else failName it.rcept_no))
    ∧ (run_download cn cc resp items).2.Perm (run_batch cn cc resp items).2 := by
  refine ⟨?_, (run_batch_spec cn cc resp items).1, perm_sortByLe sumLe _⟩
  rw [(run_batch_spec cn cc resp items).2]
  rfl

/-! ## Lemmas about the pagination loop (C5, C10) -/

/-- One unfolding step of the pagination loop. -/
theorem fetchListAux_step (pages : Nat → ListPage) (fuel : Nat)
    (out : List FilingItem) (pn : Nat) :
    fetchListAux pages (fuel + 1) out pn =
      (if (pages pn).status ≠ "000" then some (Except.error (pages pn).message)
       else if (pages pn).total_count.getD 0 ≤ (out ++ (pages pn).list.getD []).length
              ∨ (pages pn).list.getD [] = [] then
         some (Except.ok (out ++ (pages pn).list.getD [], pn))
       else fetchListAux pages fuel (out ++ (pages pn).list.getD []) (pn + 1)) := rfl

/-- The loop stops at a page exactly when a stop condition holds there. -/
theorem fetchListAux_stop (pages : Nat → ListPage) (fuel : Nat)
    (out : List FilingItem) (pn : Nat) (hs : (pages pn).status = "000")
    (hstop : (pages pn).total_count.getD 0 ≤ (out ++ (pages pn).list.getD []).length
      ∨ (pages pn).list.getD [] = []) :
    fetchListAux pages (fuel + 1) out pn
      = some (Except.ok (out ++ (pages pn).list.getD [], pn)) := by
  rw [fetchListAux_step, if_neg (fun hne => hne hs), if_pos hstop]

/-- The loop keeps fetching while no stop condition holds. -/
theorem fetchListAux_continue (pages : Nat → ListPage) (fuel : Nat)
    (out : List FilingItem) (pn : Nat) (hs : (pages pn).status = "000")
    (hgo : ¬ ((pages pn).total_count.getD 0 ≤ (out ++ (pages pn).list.getD []).length
      ∨ (pages pn).list.getD [] = [])) :
    fetchListAux pages (fuel + 1) out pn
      = fetchListAux pages fuel (out ++ (pages pn).list.getD []) (pn + 1) := by
  rw [fetchListAux_step, if_neg (fun hne => hne hs), if_neg hgo]

/-- C5: the pagination loop stops at a page exactly when the accumulated count
reaches the reported total or that page carried no items, and keeps fetching
otherwise; a consistent endpoint reporting 250 over pages of 100 yields exactly
250 items after 3 page fetches; an empty page terminates the collection even
though the reported total 250 was not reached. -/
theorem fetch_list_pagination_spec (pages : Nat → ListPage) (fuel : Nat)
    (out : List FilingItem) (pn : Nat) :
    ((pages pn).status = "000" →
      ((pages pn).total_count.getD 0 ≤ (out ++ (pages pn).list.getD []).length
          ∨ (pages pn).list.getD [] = []) →
      fetchListAux pages (fuel + 1) out pn
        = some (Except.ok (out ++ (pages pn).list.getD [], pn)))
    ∧ ((pages pn).status = "000" →
      (¬ ((pages pn).total_count.getD 0 ≤ (out ++ (pages pn).list.getD []).length
          ∨ (pages pn).list.getD [] = [])) →
      fetchListAux pages (fuel + 1) out pn
        = fetchListAux pages fuel (out ++ (pages pn).list.getD []) (pn + 1))
    ∧ fetch_list pages250 9 = some (Except.ok (List.replicate 250 itemA, 3))
    ∧ (fetch_list pagesE 9 = some (Except.ok (List.replicate 100 itemA, 2))
        ∧ (100 : Nat) < 250) :=
  ⟨fetchListAux_stop pages fuel out pn, fetchListAux_continue pages fuel out pn,
    by decide, by decide, by decide⟩

/-- Witness for fetch_list_pagination_spec: the loop of the inconsistent
endpoint stops on the empty second page. -/
theorem fetch_list_pagination_spec_witness :
    (pagesE 2).status = "000"
    ∧ ((pagesE 2).total_count.getD 0
          ≤ (List.replicate 100 itemA ++ (pagesE 2).list.getD []).length
        ∨ (pagesE 2).list.getD [] = [])
    ∧ fetchListAux pagesE 1 (List.replicate 100 itemA) 2
        = some (Except.ok (List.replicate 100 itemA ++ (pagesE 2).list.getD [], 2)) :=
  ⟨by decide, by decide,
    (fetch_list_pagination_spec pagesE 0 (List.replicate 100 itemA) 2).1
      (by decide) (by decide)⟩

/-- C10: when the first page reports a missing or zero total, the lister
returns exactly that first page's items after one fetch, even when the page is
non-empty. -/
theorem fetch_list_zero_total (pages : Nat → ListPage) (fuel : Nat)
    (h0 : (pages 1).status = "000") (ht : (pages 1).total_count.getD 0 = 0) :
    fetch_list pages (fuel + 1) = some (Except.ok ((pages 1).list.getD [], 1)) := by
  have h := fetchListAux_stop pages fuel [] 1 h0
    (Or.inl (by rw [ht]; exact Nat.zero_le _))
  simpa using h

/-- Witness for fetch_list_zero_total at the no-total endpoint. -/
theorem fetch_list_zero_total_witness :
    (pages0 1).status = "000" ∧ (pages0 1).total_count.getD 0 = 0
    ∧ fetch_list pages0 3 = some (Except.ok ([itemA], 1)) :=
  ⟨by decide, by decide, fetch_list_zero_total pages0 2 (by decide) (by decide)⟩

/-! ## C2: the swallowed upstream error message -/

/-- C2 (code bug): on a non-archive JSON error envelope the code's inner block
computes the status/message RuntimeError, but the enclosing except-pass handler
swallows it, so fetch_corp_master raises only the generic non-ZIP error instead
of surfacing the extracted status/message. -/
theorem fetch_corp_master_error_swallowed :
    fetch_corp_master "KEY" (some c2resp)
      = Except.error "OpenDART에서 ZIP이 아닌 응답을 반환했습니다. API Key/요청 상태를 확인하세요."
    ∧ jsonBlockError c2resp.json_env
      = Except.error "OpenDART 오류(status=020): 사용한도 초과"
    ∧ exceptPass (jsonBlockError c2resp.json_env) = Except.ok () :=
  ⟨by decide, by decide, by decide⟩

end Dart
